import Mathlib

/-!
Verification of the redispatch pipeline in
`src/redispatch/electricity_redispatch.py` (class `RedispatchModel`).

The development shallowly embeds the three parts of the program that the
claims are about:

* the redispatch generator splitter (`run_redispatch_model`, lines 96-120):
  pandas arithmetic on the market results, including the NaN / infinity
  semantics of float division (`PVal`, `pdiv`, `fillna0`), and the
  `madd` calls that create the " ramp up" / " ramp down" generators;
* the bidding-zone aggregation (`run_market_model`, lines 70-83): rewriting
  one-port and branch bus references through the `country` series (a partial
  map, since `Series.map` silently yields NaN on a missing key), removing
  now-internal branches, and rebuilding the bus set from the distinct zone
  values in first-occurrence order (`Series.unique`);
* the stage orchestration of `__init__` / `set_solver` (lines 11-18, 31-37):
  the order of solve, export and splitting events and the solver-options
  mapping passed to each `optimize` call, with the solver abstracted as an
  oracle that can succeed or fail per stage.

Numbers are rationals; a pandas float cell is a `PVal` (a number, NaN, or a
signed infinity).  Time series are total functions from snapshot indices
(`Nat`) to values, and a pandas DataFrame of time series is an association
list from column names to such functions, looked up with `List.lookup`.
-/

/-- Value of a pandas float cell: a finite rational, NaN, or a signed
infinity.  Division by zero yields NaN for `0 / 0` and a signed infinity
otherwise, as in pandas/numpy float arithmetic. -/
inductive PVal where
  | num (q : ℚ)
  | nan
  | posInf
  | negInf
deriving DecidableEq

/-- Pandas/numpy float division `x / y` on rationals: `0 / 0` is NaN,
`x / 0` for `x ≠ 0` is a signed infinity, otherwise a finite quotient. -/
def pdiv (x y : ℚ) : PVal :=
  if y = 0 then
    if x = 0 then PVal.nan
    else if 0 < x then PVal.posInf
    else PVal.negInf
  else PVal.num (x / y)

/-- Pandas `fillna(0)`: replaces NaN by `0` and leaves every other value
(including infinities) unchanged. -/
def fillna0 (v : PVal) : PVal :=
  match v with
  | PVal.nan => PVal.num 0
  | v => v

/-- Static row of the `generators` DataFrame: the attributes of a pypsa
generator that the splitter reads or copies. -/
structure Gen where
  name : String
  bus : String
  p_nom : ℚ
  marginal_cost : ℚ
  p_min_pu : ℚ
  p_max_pu : ℚ
deriving DecidableEq

/-- Solved market model (`self.market_model` after `optimize`): the static
generator table, the pre-existing time-varying dispatch-bound series
(`generators_t.p_min_pu` / `generators_t.p_max_pu`, one column per generator
that has one), and the solved dispatch `generators_t.p`. -/
structure Market where
  gens : List Gen
  pmin_t : List (String × (Nat → ℚ))
  pmax_t : List (String × (Nat → ℚ))
  p : String → Nat → ℚ

/-- Dense lower dispatch bound of a market generator
(`get_switchable_as_dense` on `p_min_pu`): the time-varying column when one
exists, the static attribute otherwise. -/
def asDenseMin (m : Market) (g : Gen) (t : Nat) : ℚ :=
  match m.pmin_t.lookup g.name with
  | some f => f t
  | none => g.p_min_pu

/-- Dense upper dispatch bound of a market generator
(`get_switchable_as_dense` on `p_max_pu`). -/
def asDenseMax (m : Market) (g : Gen) (t : Nat) : ℚ :=
  match m.pmax_t.lookup g.name with
  | some f => f t
  | none => g.p_max_pu

/-- Line 99: one column of
`(market.generators_t.p / market.generators.p_nom).fillna(0)`. -/
def ratioFun (m : Market) (g : Gen) : Nat → PVal :=
  fun t => fillna0 (pdiv (m.p g.name t) g.p_nom)

/-- Line 113: one column of
`(as_dense(market, "Generator", "p_max_pu") * p_nom - market.p).clip(0) / p_nom`
(no `fillna` is applied here in the source). -/
def upFun (m : Market) (g : Gen) : Nat → PVal :=
  fun t => pdiv (max 0 (asDenseMax m g t * g.p_nom - m.p g.name t)) g.p_nom

/-- Line 114: one column of `-market.p / p_nom` (again without `fillna`). -/
def downFun (m : Market) (g : Gen) : Nat → PVal :=
  fun t => pdiv (-(m.p g.name t)) g.p_nom

/-- Static row added for a ramp-up generator by line 119: the copied row of
the original generator with the renamed index (line 110) and the `p_max_pu`
column dropped, so that static attribute reverts to the pypsa default `1`
(the actual upper bound comes from the `up` time series).  Note that
`p_min_pu` is NOT dropped: the original static `p_min_pu` is inherited. -/
def mkUpGen (g : Gen) : Gen :=
  { g with name := g.name ++ " ramp up", p_max_pu := 1 }

/-- Static row added for a ramp-down generator by line 120: the copied row
with the renamed index (line 111), both `p_min_pu` and `p_max_pu` columns
dropped (defaults `0` and `1`), and the scalar keyword `p_max_pu=0`
overriding the static upper bound to `0`. -/
def mkDownGen (g : Gen) : Gen :=
  { g with name := g.name ++ " ramp down", p_min_pu := 0, p_max_pu := 0 }

/-- Redispatch network state after the splitter ran (lines 96-120): static
generator table plus the time-varying bound DataFrames. -/
structure Redispatch where
  gens : List Gen
  pmin_t : List (String × (Nat → PVal))
  pmax_t : List (String × (Nat → PVal))

/-- Lines 96-120 of `run_redispatch_model`, up to (excluding) the solve:
copy the original network, overwrite `generators_t.p_min_pu` and
`generators_t.p_max_pu` with the realized market ratio (lines 99-101), and
`madd` the ramp-up and ramp-down generators with their derived bound series
(lines 108-120).  `orig` is the static generator table of the copied
original network, `m` the solved market model. -/
def runRedispatchSplit (orig : List Gen) (m : Market) : Redispatch :=
  { gens := orig ++ orig.map mkUpGen ++ orig.map mkDownGen
  , pmin_t :=
      m.gens.map (fun g => (g.name, ratioFun m g)) ++
      m.gens.map (fun g => (g.name ++ " ramp down", downFun m g))
  , pmax_t :=
      m.gens.map (fun g => (g.name, ratioFun m g)) ++
      m.gens.map (fun g => (g.name ++ " ramp up", upFun m g)) }

/-- Effective (dense) lower dispatch bound of a generator on the redispatch
network: its time-varying column when one exists, its static attribute
otherwise (pypsa `get_switchable_as_dense` semantics). -/
def denseMin (r : Redispatch) (g : Gen) (t : Nat) : PVal :=
  match r.pmin_t.lookup g.name with
  | some f => f t
  | none => PVal.num g.p_min_pu

/-- Effective (dense) upper dispatch bound of a generator on the redispatch
network. -/
def denseMax (r : Redispatch) (g : Gen) (t : Nat) : PVal :=
  match r.pmax_t.lookup g.name with
  | some f => f t
  | none => PVal.num g.p_max_pu

/-- Feasibility of the solved market dispatch: every generator's dispatch
lies between its dense lower and upper bounds scaled by `p_nom` (what the
external solver guarantees for a feasible solution). -/
def marketFeasible (m : Market) : Prop :=
  ∀ g ∈ m.gens, ∀ t : Nat,
    asDenseMin m g t * g.p_nom ≤ m.p g.name t ∧
    m.p g.name t ≤ asDenseMax m g t * g.p_nom

/-- Row of a one-port component DataFrame (generator, load, ...): a name and
the owning bus. -/
structure OnePort where
  name : String
  bus : String
deriving DecidableEq

/-- One-port row after the zone rewrite: the bus reference may be NaN
(`none`) when the zone series had no entry for the original bus. -/
structure ZOnePort where
  name : String
  bus : Option String
deriving DecidableEq

/-- Row of a branch component DataFrame (line, link, ...): a name and the
two endpoint buses. -/
structure Branch where
  name : String
  bus0 : String
  bus1 : String
deriving DecidableEq

/-- Branch row after the zone rewrite; endpoints may be NaN (`none`). -/
structure ZBranch where
  name : String
  bus0 : Option String
  bus1 : Option String
deriving DecidableEq

/-- Pandas equality test on two possibly-NaN cells: NaN compares unequal to
everything, including NaN itself. -/
def pandasEqB (a b : Option String) : Bool :=
  match a, b with
  | some x, some y => x == y
  | _, _ => false

/-- Helper for `uniqueFirst`: drops the values already seen, keeping the
first occurrence of every other value. -/
def uniqueFirstAux {α : Type} [DecidableEq α] (seen : List α) : List α → List α
  | [] => []
  | a :: l =>
    if a ∈ seen then uniqueFirstAux seen l
    else a :: uniqueFirstAux (a :: seen) l

/-- Pandas `Series.unique`: the distinct values in first-occurrence order. -/
def uniqueFirst {α : Type} [DecidableEq α] (l : List α) : List α :=
  uniqueFirstAux [] l

/-- Topology-relevant part of the copied network entering the bidding-zone
aggregation: bus index, one-port components and branch components. -/
structure TopoNet where
  buses : List String
  oneports : List OnePort
  branches : List Branch
deriving DecidableEq

/-- Aggregated (zonal) topology.  Bus identities and bus references are
`Option String` because an unmapped original bus is rewritten to NaN. -/
structure ZTopoNet where
  buses : List (Option String)
  oneports : List ZOnePort
  branches : List ZBranch
deriving DecidableEq

/-- Lines 71-72: rewrite every one-port bus reference through the zone
series (`Series.map`, yielding NaN on a missing key). -/
def aggOnePorts (zones : String → Option String) (l : List OnePort) : List ZOnePort :=
  l.map (fun o => { name := o.name, bus := zones o.bus })

/-- Lines 75-79: rewrite both endpoints of every branch through the zone
series, then `mremove` the branches whose rewritten endpoints are equal
under pandas comparison (`bus0 == bus1`). -/
def aggBranches (zones : String → Option String) (l : List Branch) : List ZBranch :=
  (l.map (fun b => { name := b.name, bus0 := zones b.bus0, bus1 := zones b.bus1 : ZBranch })).filter
    (fun zb => !(pandasEqB zb.bus0 zb.bus1))

/-- Lines 82-83: remove all original buses and `madd` one bus per distinct
value of the zone series (`zones.unique()`), in first-occurrence order over
the original bus index. -/
def aggBuses (zones : String → Option String) (buses : List String) : List (Option String) :=
  uniqueFirst (buses.map zones)

/-- Lines 70-83 of `run_market_model`: the whole bidding-zone aggregation
applied to the copied network. -/
def aggregateNet (zones : String → Option String) (net : TopoNet) : ZTopoNet :=
  { buses := aggBuses zones net.buses
  , oneports := aggOnePorts zones net.oneports
  , branches := aggBranches zones net.branches }

/-- Outcome reported by the external solver for one stage's `optimize`
call. -/
inductive SolveOutcome where
  | ok
  | infeasible
  | err
deriving DecidableEq

/-- Observable event of the pipeline: a solve attempt with the options
mapping passed to it, a result export, the bidding-zone aggregation
producing a zonal network, or the redispatch generator splitting. -/
inductive Ev where
  | solveAttempt (stage : String) (opts : List (String × ℚ))
  | exportResult (stage : String)
  | aggregated (znet : ZTopoNet)
  | split
deriving DecidableEq

/-- Lines 31-37, `set_solver`: the options mapping starts empty and is only
replaced by the hard-coded gurobi mapping when `solver == "gurobi"` and
`settings == "default"`. -/
def setSolver (solver settings : String) : List (String × ℚ) :=
  if solver = "gurobi" then
    if settings = "default" then
      [("Crossover", 0), ("Threads", 4), ("Method", 2),
       ("BarConvTol", 1 / 1000000), ("Seed", 123), ("AggFill", 0),
       ("PreDual", 0), ("GURO_PAR_BARDENSETHRESH", 200)]
    else []
  else []

/-- Lines 11-18 with lines 58-124: the sequential pipeline run by
`__init__`.  Each stage calls `optimize` (whose outcome the oracle `sres`
reports per stage) and exports its results only in its success
continuation; a failing solve raises out of `__init__`, so later stages
never run.  The market stage performs the bidding-zone aggregation before
its solve; the redispatch stage performs the generator splitting before its
solve.  The result is the event trace and, when a stage failed, its name. -/
def runPipeline (sres : String → SolveOutcome) (net : TopoNet)
    (zones : String → Option String) (solver settings : String) :
    List Ev × Option String :=
  let opts := setSolver solver settings
  let evs1 := [Ev.solveAttempt ("network_model") opts]
  match sres ("network_model") with
  | SolveOutcome.ok =>
    let evs2 := evs1 ++ [Ev.exportResult ("network_model"),
      Ev.aggregated (aggregateNet zones net),
      Ev.solveAttempt ("market_model") opts]
    match sres ("market_model") with
    | SolveOutcome.ok =>
      let evs3 := evs2 ++ [Ev.exportResult ("market_model"), Ev.split,
        Ev.solveAttempt ("redispatch_model") opts]
      match sres ("redispatch_model") with
      | SolveOutcome.ok => (evs3 ++ [Ev.exportResult ("redispatch_model")], none)
      | _ => (evs3, some ("redispatch_model"))
    | _ => (evs2, some ("market_model"))
  | _ => (evs1, some ("network_model"))

/-- Data of a string concatenation is the concatenation of the data. -/
theorem strApp_data (a b : String) : (a ++ b).data = a.data ++ b.data := by
  cases a; cases b; rfl

/-- Appending a fixed suffix to strings is injective. -/
theorem strApp_cancel {a b c : String} (h : a ++ c = b ++ c) : a = b := by
  have hd : a.data ++ c.data = b.data ++ c.data := by
    rw [← strApp_data, ← strApp_data, h]
  have hab : a.data = b.data := List.append_cancel_right hd
  cases a; cases b; simp_all

/-- Generator splitter name disjointness: a " ramp up" name is never a
" ramp down" name. -/
theorem up_ne_down (x y : String) : x ++ " ramp up" ≠ y ++ " ramp down" := by
  intro h
  have hd : x.data ++ (" ramp up").data = y.data ++ (" ramp down").data := by
    rw [← strApp_data, ← strApp_data, h]
  have h1 : (x.data ++ (" ramp up").data).getLast? = some 'p' := by
    rw [List.getLast?_append]
    rfl
  have h2 : (y.data ++ (" ramp down").data).getLast? = some 'n' := by
    rw [List.getLast?_append]
    rfl
  rw [hd, h2] at h1
  simp at h1

/-- Lookup hits in the left part of an appended association list. -/
theorem lookup_append_some {α β : Type} [BEq α] {l₁ l₂ : List (α × β)} {a : α} {v : β}
    (h : l₁.lookup a = some v) : (l₁ ++ l₂).lookup a = some v := by
  induction l₁ with
  | nil => simp [List.lookup] at h
  | cons p t ih =>
    rcases p with ⟨k, w⟩
    simp only [List.cons_append, List.lookup] at h ⊢
    cases hak : a == k with
    | true => simpa [hak] using h
    | false =>
      simp only [hak] at h ⊢
      exact ih h

/-- Lookup falls through to the right part of an appended association
list. -/
theorem lookup_append_none {α β : Type} [BEq α] {l₁ l₂ : List (α × β)} {a : α}
    (h : l₁.lookup a = none) : (l₁ ++ l₂).lookup a = l₂.lookup a := by
  induction l₁ with
  | nil => simp
  | cons p t ih =>
    rcases p with ⟨k, w⟩
    simp only [List.cons_append, List.lookup] at h ⊢
    cases hak : a == k with
    | true => simp [hak] at h
    | false =>
      simp only [hak] at h ⊢
      exact ih h

/-- Looking up a generator's key in a keyed table built by `map` returns
that generator's entry, provided the keys are distinct. -/
theorem lookup_map_key {β : Type} (k : Gen → String) (f : Gen → β) (l : List Gen) (g : Gen)
    (hg : g ∈ l) (hnd : (l.map k).Nodup) :
    (l.map (fun x => (k x, f x))).lookup (k g) = some (f g) := by
  induction l with
  | nil => simp at hg
  | cons x t ih =>
    simp only [List.map_cons, List.nodup_cons] at hnd
    simp only [List.map_cons, List.lookup]
    cases hek : k g == k x with
    | true =>
      have hkk : k g = k x := eq_of_beq hek
      rcases List.mem_cons.mp hg with hgx | hgt
      · subst hgx; simp
      · exact absurd (hkk ▸ List.mem_map_of_mem k hgt) hnd.1
    | false =>
      have hgt : g ∈ t := by
        rcases List.mem_cons.mp hg with hgx | hgt
        · subst hgx; simp at hek
        · exact hgt
      exact ih hgt hnd.2

/-- Looking up a key that matches no generator's key in a keyed table
returns nothing. -/
theorem lookup_map_key_none {β : Type} (k : Gen → String) (f : Gen → β) (l : List Gen)
    (a : String) (h : ∀ x ∈ l, a ≠ k x) :
    (l.map (fun x => (k x, f x))).lookup a = none := by
  induction l with
  | nil => rfl
  | cons x t ih =>
    simp only [List.map_cons, List.lookup]
    have hne : (a == k x) = false := by
      rw [beq_eq_false_iff_ne]
      exact h x (List.mem_cons_self x t)
    simp only [hne]
    exact ih (fun y hy => h y (List.mem_cons_of_mem x hy))

/-- Suffixing preserves distinctness of generator names. -/
theorem nodup_map_app (l : List Gen) (s : String) (hnd : (l.map Gen.name).Nodup) :
    (l.map (fun g => g.name ++ s)).Nodup := by
  have he : l.map (fun g => g.name ++ s) = (l.map Gen.name).map (fun n => n ++ s) := by
    simp [List.map_map, Function.comp]
  rw [he]
  exact hnd.map (fun a b hab => strApp_cancel hab)

/-- Counting the complement of a Boolean predicate. -/
theorem countP_bnot {α : Type} (p : α → Bool) (l : List α) :
    l.countP (fun a => !(p a)) = l.length - l.countP p := by
  induction l with
  | nil => rfl
  | cons a t ih =>
    have hle := List.countP_le_length (l := t) p
    simp only [List.countP_cons, List.length_cons]
    cases hpa : p a
    · simp only [Bool.not_false, if_true, if_false, Bool.false_eq_true, ih]
      omega
    · simp only [Bool.not_true, if_true, if_false, Bool.false_eq_true, ih]
      omega

/-- In a list with distinct keys, exactly one element carries a member's
key. -/
theorem countP_key_one (k : Gen → String) (l : List Gen) (g : Gen)
    (hg : g ∈ l) (hnd : (l.map k).Nodup) :
    l.countP (fun x => k x == k g) = 1 := by
  induction l with
  | nil => simp at hg
  | cons x t ih =>
    simp only [List.map_cons, List.nodup_cons] at hnd
    rcases List.mem_cons.mp hg with hgx | hgt
    · subst hgx
      have h0 : t.countP (fun y => k y == k g) = 0 := by
        rw [List.countP_eq_zero]
        intro y hy hbeq
        exact hnd.1 ((eq_of_beq hbeq) ▸ List.mem_map_of_mem k hy)
      simp [List.countP_cons, h0]
    · have hne : (k x == k g) = false := by
        rw [beq_eq_false_iff_ne]
        intro he
        exact hnd.1 (he ▸ List.mem_map_of_mem k hgt)
      simp [List.countP_cons, hne, ih hgt hnd.2]

/-- Helper: `uniqueFirstAux` leaves a duplicate-free list disjoint from the
seen set unchanged. -/
theorem uniqueFirstAux_of_nodup {α : Type} [DecidableEq α] (l : List α) :
    ∀ seen : List α, l.Nodup → (∀ x ∈ l, x ∉ seen) → uniqueFirstAux seen l = l := by
  induction l with
  | nil =>
    intro seen _ _
    rfl
  | cons a t ih =>
    intro seen hnd hdisj
    rw [List.nodup_cons] at hnd
    have hna : a ∉ seen := hdisj a (List.mem_cons_self a t)
    simp only [uniqueFirstAux, if_neg hna]
    congr 1
    refine ih (a :: seen) hnd.2 ?_
    intro x hx
    simp only [List.mem_cons]
    rintro (rfl | hxs)
    · exact hnd.1 hx
    · exact hdisj x (List.mem_cons_of_mem a hx) hxs

/-- `uniqueFirst` leaves a duplicate-free list unchanged. -/
theorem uniqueFirst_of_nodup {α : Type} [DecidableEq α] (l : List α) (h : l.Nodup) :
    uniqueFirst l = l := by
  refine uniqueFirstAux_of_nodup l [] h ?_
  intro x hx
  simp

/-- C1: after the splitter's fix (lines 99-101), for every original
generator and snapshot, both `p_min_pu` and `p_max_pu` on the redispatch
network equal the realized ratio `market.p / market.p_nom` with NaN filled
by `0`; for a feasible market dispatch this is `0` whenever `p_nom = 0`
(the cell is the NaN of `0 / 0`, caught by `fillna(0)`) and the plain
quotient otherwise, so the original generator's dispatch is pinned to the
market outcome and no division error occurs.  `go` is the generator's row
in the copied original network, `g` its row in the market model (same
name). -/
theorem claim1_realized_ratio_fix (orig : List Gen) (m : Market) (go g : Gen) (t : Nat)
    (hgo : go ∈ orig) (hg : g ∈ m.gens) (hname : go.name = g.name)
    (hnd : (m.gens.map Gen.name).Nodup) (hfeas : marketFeasible m) :
    go ∈ (runRedispatchSplit orig m).gens ∧
    denseMin (runRedispatchSplit orig m) go t = fillna0 (pdiv (m.p g.name t) g.p_nom) ∧
    denseMax (runRedispatchSplit orig m) go t = fillna0 (pdiv (m.p g.name t) g.p_nom) ∧
    (g.p_nom = 0 → denseMin (runRedispatchSplit orig m) go t = PVal.num 0 ∧
      denseMax (runRedispatchSplit orig m) go t = PVal.num 0) ∧
    (g.p_nom ≠ 0 →
      denseMin (runRedispatchSplit orig m) go t = PVal.num (m.p g.name t / g.p_nom)) := by
  have hcolmin : (runRedispatchSplit orig m).pmin_t.lookup go.name = some (ratioFun m g) := by
    simp only [runRedispatchSplit, hname]
    exact lookup_append_some (lookup_map_key Gen.name (ratioFun m) m.gens g hg hnd)
  have hcolmax : (runRedispatchSplit orig m).pmax_t.lookup go.name = some (ratioFun m g) := by
    simp only [runRedispatchSplit, hname]
    exact lookup_append_some (lookup_map_key Gen.name (ratioFun m) m.gens g hg hnd)
  have hmin : denseMin (runRedispatchSplit orig m) go t = ratioFun m g t := by
    simp only [denseMin, hcolmin]
  have hmax : denseMax (runRedispatchSplit orig m) go t = ratioFun m g t := by
    simp only [denseMax, hcolmax]
  refine ⟨?_, ?_, ?_, ?_, ?_⟩
  · simp only [runRedispatchSplit]
    exact List.mem_append_left _ (List.mem_append_left _ hgo)
  · exact hmin
  · exact hmax
  · intro hz
    have hb := hfeas g hg t
    rw [hz, mul_zero, mul_zero] at hb
    have hp0 : m.p g.name t = 0 := le_antisymm hb.2 hb.1
    constructor
    · rw [hmin]
      simp [ratioFun, pdiv, fillna0, hp0, hz]
    · rw [hmax]
      simp [ratioFun, pdiv, fillna0, hp0, hz]
  · intro hz
    rw [hmin]
    simp [ratioFun, pdiv, fillna0, hz]

/-- Concrete generator used by the witnesses: `p_nom = 10`, static bounds
`[0, 1]`, constant market dispatch `3`. -/
def gW : Gen :=
  { name := "gen1", bus := "b1", p_nom := 10, marginal_cost := 7
  , p_min_pu := 0, p_max_pu := 1 }

/-- Concrete solved market model used by the witnesses. -/
def mktW : Market :=
  { gens := [gW], pmin_t := [], pmax_t := [], p := fun _ _ => 3 }

/-- Feasibility of the concrete market dispatch `mktW`. -/
theorem mktW_feasible : marketFeasible mktW := by
  intro g hg t
  simp only [mktW, List.mem_singleton] at hg
  subst hg
  constructor
  · norm_num [asDenseMin, mktW, gW]
  · norm_num [asDenseMax, mktW, gW]

/-- Witness for C1 at the concrete input: the fixed bounds both evaluate to
the realized ratio `3 / 10`. -/
theorem claim1_realized_ratio_fix_witness :
    denseMin (runRedispatchSplit [gW] mktW) gW 0 = PVal.num (3 / 10) ∧
    denseMax (runRedispatchSplit [gW] mktW) gW 0 = PVal.num (3 / 10) := by
  have h := claim1_realized_ratio_fix [gW] mktW gW gW 0 (by decide) (by decide) rfl
    (by decide) mktW_feasible
  refine ⟨?_, ?_⟩
  · rw [h.2.1]
    norm_num [mktW, gW, pdiv, fillna0]
  · rw [h.2.2.1]
    norm_num [mktW, gW, pdiv, fillna0]

/-- C2: the ramp-up generator created by lines 110, 113, 116 and 119 has,
at every snapshot, the upper bound
`(max 0 (available_max * p_nom - market.p)) / p_nom` where `available_max`
is the market model's dense `p_max_pu`; in particular, whenever
`p_nom > 0`, that bound is a finite number `≥ 0`. -/
theorem claim2_ramp_up_bound (orig : List Gen) (m : Market) (go g : Gen) (t : Nat)
    (hgo : go ∈ orig) (hg : g ∈ m.gens) (hname : go.name = g.name)
    (hnd : (m.gens.map Gen.name).Nodup)
    (hfresh : ∀ x ∈ m.gens, ∀ y ∈ m.gens, x.name ≠ y.name ++ " ramp up") :
    mkUpGen go ∈ (runRedispatchSplit orig m).gens ∧
    denseMax (runRedispatchSplit orig m) (mkUpGen go) t =
      pdiv (max 0 (asDenseMax m g t * g.p_nom - m.p g.name t)) g.p_nom ∧
    (0 < g.p_nom → ∃ q : ℚ,
      denseMax (runRedispatchSplit orig m) (mkUpGen go) t = PVal.num q ∧ 0 ≤ q) := by
  have hkey : (mkUpGen go).name = g.name ++ " ramp up" := by
    simp [mkUpGen, hname]
  have hcol : (runRedispatchSplit orig m).pmax_t.lookup (mkUpGen go).name =
      some (upFun m g) := by
    simp only [runRedispatchSplit, hkey]
    rw [lookup_append_none (lookup_map_key_none Gen.name (ratioFun m) m.gens _
      (fun x hx he => hfresh x hx g hg he.symm))]
    exact lookup_map_key (fun x => x.name ++ " ramp up") (upFun m) m.gens g hg
      (nodup_map_app m.gens _ hnd)
  have hup : denseMax (runRedispatchSplit orig m) (mkUpGen go) t = upFun m g t := by
    simp only [denseMax, hcol]
  refine ⟨?_, hup, ?_⟩
  · simp only [runRedispatchSplit]
    exact List.mem_append_left _
      (List.mem_append_right _ (List.mem_map_of_mem mkUpGen hgo))
  · intro hpos
    refine ⟨max 0 (asDenseMax m g t * g.p_nom - m.p g.name t) / g.p_nom, ?_, ?_⟩
    · rw [hup]
      simp [upFun, pdiv, ne_of_gt hpos]
    · exact div_nonneg (le_max_left _ _) hpos.le

/-- Witness for C2 at the concrete input: the ramp-up bound evaluates to
`(1 * 10 - 3) / 10 = 7 / 10 ≥ 0`. -/
theorem claim2_ramp_up_bound_witness :
    denseMax (runRedispatchSplit [gW] mktW) (mkUpGen gW) 0 = PVal.num (7 / 10) ∧
    (0:ℚ) ≤ 7 / 10 := by
  have h := claim2_ramp_up_bound [gW] mktW gW gW 0 (by decide) (by decide) rfl
    (by decide) (by decide)
  refine ⟨?_, by norm_num⟩
  rw [h.2.1]
  norm_num [mktW, gW, pdiv, asDenseMax]

/-- C3: the ramp-down generator created by lines 111, 114, 117 and 120 has,
at every snapshot, the lower bound `-market.p / p_nom` as a time series and
the fixed upper bound `0` (static attribute `p_max_pu = 0`, no time-varying
column); whenever `p_nom > 0` and the market dispatch is nonnegative, the
lower bound is a finite number `≤ 0`, so the generator can only reduce
output. -/
theorem claim3_ramp_down_bound (orig : List Gen) (m : Market) (go g : Gen) (t : Nat)
    (hgo : go ∈ orig) (hg : g ∈ m.gens) (hname : go.name = g.name)
    (hnd : (m.gens.map Gen.name).Nodup)
    (hfresh : ∀ x ∈ m.gens, ∀ y ∈ m.gens, x.name ≠ y.name ++ " ramp down") :
    mkDownGen go ∈ (runRedispatchSplit orig m).gens ∧
    denseMin (runRedispatchSplit orig m) (mkDownGen go) t =
      pdiv (-(m.p g.name t)) g.p_nom ∧
    denseMax (runRedispatchSplit orig m) (mkDownGen go) t = PVal.num 0 ∧
    (0 < g.p_nom → 0 ≤ m.p g.name t → ∃ q : ℚ,
      denseMin (runRedispatchSplit orig m) (mkDownGen go) t = PVal.num q ∧ q ≤ 0) := by
  have hkey : (mkDownGen go).name = g.name ++ " ramp down" := by
    simp [mkDownGen, hname]
  have hcolmin : (runRedispatchSplit orig m).pmin_t.lookup (mkDownGen go).name =
      some (downFun m g) := by
    simp only [runRedispatchSplit, hkey]
    rw [lookup_append_none (lookup_map_key_none Gen.name (ratioFun m) m.gens _
      (fun x hx he => hfresh x hx g hg he.symm))]
    exact lookup_map_key (fun x => x.name ++ " ramp down") (downFun m) m.gens g hg
      (nodup_map_app m.gens _ hnd)
  have hcolmax : (runRedispatchSplit orig m).pmax_t.lookup (mkDownGen go).name = none := by
    simp only [runRedispatchSplit, hkey]
    rw [lookup_append_none (lookup_map_key_none Gen.name (ratioFun m) m.gens _
      (fun x hx he => hfresh x hx g hg he.symm))]
    exact lookup_map_key_none (fun x => x.name ++ " ramp up") (upFun m) m.gens _
      (fun x hx => (up_ne_down x.name g.name).symm)
  have hdown : denseMin (runRedispatchSplit orig m) (mkDownGen go) t = downFun m g t := by
    simp only [denseMin, hcolmin]
  refine ⟨?_, hdown, ?_, ?_⟩
  · simp only [runRedispatchSplit]
    exact List.mem_append_right _ (List.mem_map_of_mem mkDownGen hgo)
  · have hm : denseMax (runRedispatchSplit orig m) (mkDownGen go) t =
        PVal.num (mkDownGen go).p_max_pu := by
      simp only [denseMax, hcolmax]
    rw [hm]
    simp [mkDownGen]
  · intro hpos hp
    refine ⟨-(m.p g.name t) / g.p_nom, ?_, ?_⟩
    · rw [hdown]
      simp [downFun, pdiv, ne_of_gt hpos]
    · rw [neg_div]
      exact neg_nonpos.mpr (div_nonneg hp hpos.le)

/-- Witness for C3 at the concrete input: the ramp-down lower bound
evaluates to `-(3 / 10) ≤ 0` and the upper bound to `0`. -/
theorem claim3_ramp_down_bound_witness :
    denseMin (runRedispatchSplit [gW] mktW) (mkDownGen gW) 0 = PVal.num (-(3 / 10)) ∧
    denseMax (runRedispatchSplit [gW] mktW) (mkDownGen gW) 0 = PVal.num 0 := by
  have h := claim3_ramp_down_bound [gW] mktW gW gW 0 (by decide) (by decide) rfl
    (by decide) (by decide)
  refine ⟨?_, h.2.2.1⟩
  rw [h.2.1]
  norm_num [mktW, gW, pdiv, downFun]

/-- Concrete must-run generator whose static `p_min_pu` is `1`, used to
refute the claim that ramp-up generators get lower bound `0` regardless of
the original generator's static `p_min_pu`. -/
def gC4 : Gen :=
  { name := "mustrun", bus := "b1", p_nom := 10, marginal_cost := 5
  , p_min_pu := 1, p_max_pu := 1 }

/-- Concrete solved market model for the `gC4` scenario. -/
def mktC4 : Market :=
  { gens := [gC4], pmin_t := [], pmax_t := [], p := fun _ _ => 10 }

/-- Counterexample to C4: line 119 drops only the `p_max_pu` column from
the copied static table, so the ramp-up generator inherits the original's
static `p_min_pu`.  For the must-run generator `gC4` (static
`p_min_pu = 1`) the ramp-up generator's effective lower bound is `1`, not
`0`. -/
theorem claim4_counterexample :
    denseMin (runRedispatchSplit [gC4] mktC4) (mkUpGen gC4) 0 = PVal.num 1 ∧
    denseMin (runRedispatchSplit [gC4] mktC4) (mkUpGen gC4) 0 ≠ PVal.num 0 := by
  have h : denseMin (runRedispatchSplit [gC4] mktC4) (mkUpGen gC4) 0 = PVal.num 1 := by
    rfl
  refine ⟨h, ?_⟩
  rw [h]
  intro he
  rw [PVal.num.injEq] at he
  norm_num at he

/-- C4 as amended: the ramp-up generator has no time-varying `p_min_pu`
column, and its static `p_min_pu` is copied from the original generator
(line 119 drops only `p_max_pu`), so its effective lower bound equals the
original's static `p_min_pu` — which is `0` exactly when the original's
static `p_min_pu` is `0` (the pypsa default), not regardless of it. -/
theorem claim4_ramp_up_min_inherited (orig : List Gen) (m : Market) (go : Gen) (t : Nat)
    (hgo : go ∈ orig)
    (hfresh : ∀ x ∈ m.gens, x.name ≠ go.name ++ " ramp up") :
    mkUpGen go ∈ (runRedispatchSplit orig m).gens ∧
    denseMin (runRedispatchSplit orig m) (mkUpGen go) t = PVal.num go.p_min_pu ∧
    (go.p_min_pu = 0 →
      denseMin (runRedispatchSplit orig m) (mkUpGen go) t = PVal.num 0) := by
  have hkey : (mkUpGen go).name = go.name ++ " ramp up" := by
    simp [mkUpGen]
  have hcol : (runRedispatchSplit orig m).pmin_t.lookup (mkUpGen go).name = none := by
    simp only [runRedispatchSplit, hkey]
    rw [lookup_append_none (lookup_map_key_none Gen.name (ratioFun m) m.gens _
      (fun x hx he => hfresh x hx he.symm))]
    exact lookup_map_key_none (fun x => x.name ++ " ramp down") (downFun m) m.gens _
      (fun x hx => up_ne_down go.name x.name)
  have hmin : denseMin (runRedispatchSplit orig m) (mkUpGen go) t =
      PVal.num (mkUpGen go).p_min_pu := by
    simp only [denseMin, hcol]
  have hval : (mkUpGen go).p_min_pu = go.p_min_pu := by
    simp [mkUpGen]
  refine ⟨?_, ?_, ?_⟩
  · simp only [runRedispatchSplit]
    exact List.mem_append_left _
      (List.mem_append_right _ (List.mem_map_of_mem mkUpGen hgo))
  · rw [hmin, hval]
  · intro h0
    rw [hmin, hval, h0]

/-- Witness for the amended C4 at the concrete input: `gW` has static
`p_min_pu = 0`, so its ramp-up generator's effective lower bound is `0`. -/
theorem claim4_ramp_up_min_inherited_witness :
    denseMin (runRedispatchSplit [gW] mktW) (mkUpGen gW) 0 = PVal.num 0 := by
  have h := claim4_ramp_up_min_inherited [gW] mktW gW 0 (by decide) (by decide)
  exact h.2.2 rfl

/-- C5: the splitter's `madd` calls (lines 108-120) add exactly one
" ramp up" and one " ramp down" copy per original generator and touch
nothing else, so the generator list becomes the originals followed by the
ramp-up copies followed by the ramp-down copies, the count is exactly
tripled, and (when the original names are distinct and no original name
already carries a ramp suffix of another) each of the three names occurs
exactly once. -/
theorem claim5_generator_count (orig : List Gen) (m : Market)
    (hnd : (orig.map Gen.name).Nodup)
    (hfresh : ∀ x ∈ orig, ∀ y ∈ orig,
      x.name ≠ y.name ++ " ramp up" ∧ x.name ≠ y.name ++ " ramp down") :
    (runRedispatchSplit orig m).gens = orig ++ orig.map mkUpGen ++ orig.map mkDownGen ∧
    (runRedispatchSplit orig m).gens.length = 3 * orig.length ∧
    ∀ g ∈ orig,
      (runRedispatchSplit orig m).gens.countP
        (fun x => x.name == g.name ++ " ramp up") = 1 ∧
      (runRedispatchSplit orig m).gens.countP
        (fun x => x.name == g.name ++ " ramp down") = 1 ∧
      (runRedispatchSplit orig m).gens.countP (fun x => x.name == g.name) = 1 := by
  refine ⟨rfl, ?_, ?_⟩
  · simp only [runRedispatchSplit, List.length_append, List.length_map]
    omega
  · intro g hg
    have hup0 : orig.countP (fun x => x.name == g.name ++ " ramp up") = 0 := by
      rw [List.countP_eq_zero]
      intro x hx hbeq
      exact (hfresh x hx g hg).1 (eq_of_beq hbeq)
    have hdown0 : orig.countP (fun x => x.name == g.name ++ " ramp down") = 0 := by
      rw [List.countP_eq_zero]
      intro x hx hbeq
      exact (hfresh x hx g hg).2 (eq_of_beq hbeq)
    have hplain1 : orig.countP (fun x => x.name == g.name) = 1 :=
      countP_key_one Gen.name orig g hg hnd
    have hupup : (orig.map mkUpGen).countP (fun x => x.name == g.name ++ " ramp up") = 1 := by
      rw [List.countP_map]
      have hc : orig.countP ((fun x => x.name == g.name ++ " ramp up") ∘ mkUpGen) =
          orig.countP (fun x => x.name == g.name) := by
        refine List.countP_congr ?_
        intro x hx
        simp only [Function.comp, mkUpGen, beq_iff_eq]
        constructor
        · intro he
          exact strApp_cancel he
        · intro he
          rw [he]
      rw [hc, hplain1]
    have hupdown : (orig.map mkUpGen).countP
        (fun x => x.name == g.name ++ " ramp down") = 0 := by
      rw [List.countP_map, List.countP_eq_zero]
      intro x hx hbeq
      simp only [Function.comp, mkUpGen, beq_iff_eq] at hbeq
      exact up_ne_down x.name g.name hbeq
    have hupplain : (orig.map mkUpGen).countP (fun x => x.name == g.name) = 0 := by
      rw [List.countP_map, List.countP_eq_zero]
      intro x hx hbeq
      simp only [Function.comp, mkUpGen, beq_iff_eq] at hbeq
      exact (hfresh g hg x hx).1 hbeq.symm
    have hdownup : (orig.map mkDownGen).countP
        (fun x => x.name == g.name ++ " ramp up") = 0 := by
      rw [List.countP_map, List.countP_eq_zero]
      intro x hx hbeq
      simp only [Function.comp, mkDownGen, beq_iff_eq] at hbeq
      exact up_ne_down g.name x.name hbeq.symm
    have hdowndown : (orig.map mkDownGen).countP
        (fun x => x.name == g.name ++ " ramp down") = 1 := by
      rw [List.countP_map]
      have hc : orig.countP ((fun x => x.name == g.name ++ " ramp down") ∘ mkDownGen) =
          orig.countP (fun x => x.name == g.name) := by
        refine List.countP_congr ?_
        intro x hx
        simp only [Function.comp, mkDownGen, beq_iff_eq]
        constructor
        · intro he
          exact strApp_cancel he
        · intro he
          rw [he]
      rw [hc, hplain1]
    have hdownplain : (orig.map mkDownGen).countP (fun x => x.name == g.name) = 0 := by
      rw [List.countP_map, List.countP_eq_zero]
      intro x hx hbeq
      simp only [Function.comp, mkDownGen, beq_iff_eq] at hbeq
      exact (hfresh g hg x hx).2 hbeq.symm
    refine ⟨?_, ?_, ?_⟩
    · simp only [runRedispatchSplit, List.countP_append, hup0, hupup, hdownup]
    · simp only [runRedispatchSplit, List.countP_append, hdown0, hupdown, hdowndown]
    · simp only [runRedispatchSplit, List.countP_append, hplain1, hupplain, hdownplain]

/-- Witness for C5 at the concrete input: one original generator becomes
three, with one ramp-up and one ramp-down copy. -/
theorem claim5_generator_count_witness :
    (runRedispatchSplit [gW] mktW).gens.length = 3 ∧
    (runRedispatchSplit [gW] mktW).gens.countP
      (fun x => x.name == gW.name ++ " ramp up") = 1 ∧
    (runRedispatchSplit [gW] mktW).gens.countP
      (fun x => x.name == gW.name ++ " ramp down") = 1 := by
  have h := claim5_generator_count [gW] mktW (by decide) (by decide)
  have hg := h.2.2 gW (by decide)
  refine ⟨?_, hg.1, hg.2.1⟩
  rw [h.2.1]
  rfl

/-- C6: the aggregation step on a branch component (lines 75-79) removes
exactly the branches whose two endpoints map to the same zone under pandas
comparison, and no others; when every endpoint is mapped, every surviving
branch has distinct rewritten endpoints (no self-loop is kept). -/
theorem claim6_internal_branch_removal (zones : String → Option String) (l : List Branch)
    (h : ∀ b ∈ l, (zones b.bus0).isSome ∧ (zones b.bus1).isSome) :
    (aggBranches zones l).length =
      l.length - l.countP (fun b => pandasEqB (zones b.bus0) (zones b.bus1)) ∧
    ∀ zb ∈ aggBranches zones l, zb.bus0 ≠ zb.bus1 := by
  constructor
  · have h1 : (aggBranches zones l).length =
        l.countP (fun b => !(pandasEqB (zones b.bus0) (zones b.bus1))) := by
      simp only [aggBranches]
      rw [← List.countP_eq_length_filter, List.countP_map]
      rfl
    rw [h1, countP_bnot]
  · intro zb hzb
    simp only [aggBranches, List.mem_filter, List.mem_map] at hzb
    obtain ⟨⟨b, hbm, rfl⟩, hpred⟩ := hzb
    obtain ⟨x, hx⟩ := Option.isSome_iff_exists.mp (h b hbm).1
    obtain ⟨y, hy⟩ := Option.isSome_iff_exists.mp (h b hbm).2
    simp only [hx, hy] at hpred ⊢
    simp only [pandasEqB, Bool.not_eq_true', beq_eq_false_iff_ne] at hpred
    intro he
    exact hpred (Option.some.inj he)

/-- Concrete network used by the C6 witness: one inter-zone branch, one
intra-zone branch, fully mapped endpoints. -/
def netW6 : TopoNet :=
  { buses := ["n1", "n2", "n3"]
  , oneports := [{ name := "g1", bus := "n1" }]
  , branches := [{ name := "l1", bus0 := "n1", bus1 := "n3" },
                 { name := "l2", bus0 := "n1", bus1 := "n2" }] }

/-- Zone series used by the C6 witness: `n1` and `n2` share zone `DE`,
`n3` is `FR`. -/
def zonesW6 : String → Option String :=
  fun b => if b = "n3" then some "FR" else if b = "n1" ∨ b = "n2" then some "DE" else none

/-- Witness for C6 at the concrete input: of two branches exactly the
intra-zone one is removed, and the survivor connects distinct zones. -/
theorem claim6_internal_branch_removal_witness :
    (aggBranches zonesW6 netW6.branches).length = 2 - 1 ∧
    ∀ zb ∈ aggBranches zonesW6 netW6.branches, zb.bus0 ≠ zb.bus1 := by
  have h := claim6_internal_branch_removal zonesW6 netW6.branches (by decide)
  refine ⟨?_, h.2⟩
  rw [h.1]
  decide

/-- C7: on a network that is already expressed in zone buses
(`zones b = some b` for every bus), the aggregation (lines 70-83) is the
identity on topology up to the `Option` wrapper on identities: the rebuilt
bus list is the original bus list, the one-port components keep their
buses, and the branch list is exactly the original list with its self-loop
branches removed. -/
theorem claim7_aggregation_idempotent (zones : String → Option String) (net : TopoNet)
    (hz : ∀ b ∈ net.buses, zones b = some b)
    (hnd : net.buses.Nodup)
    (ho : ∀ o ∈ net.oneports, o.bus ∈ net.buses)
    (hb : ∀ br ∈ net.branches, br.bus0 ∈ net.buses ∧ br.bus1 ∈ net.buses) :
    (aggregateNet zones net).buses = net.buses.map some ∧
    (aggregateNet zones net).oneports =
      net.oneports.map (fun o => { name := o.name, bus := some o.bus }) ∧
    (aggregateNet zones net).branches =
      (net.branches.filter (fun b => !(b.bus0 == b.bus1))).map
        (fun b => { name := b.name, bus0 := some b.bus0, bus1 := some b.bus1 }) := by
  refine ⟨?_, ?_, ?_⟩
  · have hmz : net.buses.map zones = net.buses.map some :=
      List.map_congr_left hz
    have hns : (net.buses.map some).Nodup :=
      hnd.map (Option.some_injective _)
    simp only [aggregateNet, aggBuses, hmz]
    exact uniqueFirst_of_nodup _ hns
  · simp only [aggregateNet, aggOnePorts]
    refine List.map_congr_left ?_
    intro o hom
    rw [hz o.bus (ho o hom)]
  · have hmz : net.branches.map
        (fun b => { name := b.name, bus0 := zones b.bus0, bus1 := zones b.bus1 : ZBranch }) =
        net.branches.map
        (fun b => { name := b.name, bus0 := some b.bus0, bus1 := some b.bus1 : ZBranch }) := by
      refine List.map_congr_left ?_
      intro b hbm
      rw [hz b.bus0 (hb b hbm).1, hz b.bus1 (hb b hbm).2]
    simp only [aggregateNet, aggBranches, hmz]
    rw [List.filter_map]
    refine congrArg _ ?_
    exact List.filter_congr (fun b hbm => rfl)

/-- Concrete already-zonal network used by the C7 witness: two zone buses,
one inter-zone branch and one self-loop branch. -/
def netW7 : TopoNet :=
  { buses := ["DE", "FR"]
  , oneports := [{ name := "g1", bus := "DE" }]
  , branches := [{ name := "l1", bus0 := "DE", bus1 := "FR" },
                 { name := "l2", bus0 := "FR", bus1 := "FR" }] }

/-- Identity zone series used by the C7 witness. -/
def zonesW7 : String → Option String :=
  fun b => some b

/-- Witness for C7 at the concrete input: aggregation keeps both buses, the
one-port, and exactly the non-self-loop branch. -/
theorem claim7_aggregation_idempotent_witness :
    (aggregateNet zonesW7 netW7).buses = netW7.buses.map some ∧
    (aggregateNet zonesW7 netW7).oneports =
      netW7.oneports.map (fun o => { name := o.name, bus := some o.bus }) ∧
    (aggregateNet zonesW7 netW7).branches =
      (netW7.branches.filter (fun b => !(b.bus0 == b.bus1))).map
        (fun b => { name := b.name, bus0 := some b.bus0, bus1 := some b.bus1 }) := by
  exact claim7_aggregation_idempotent zonesW7 netW7 (fun b hbm => rfl) (by decide)
    (by decide) (by decide)

/-- C8 as amended: the aggregation (lines 70-83) raises no error on an
unmapped bus — `Series.map` silently rewrites the bus reference to NaN
(`none`) — and whenever the network stage succeeded the pipeline still
reaches the market-model solve attempt on the aggregated network.  There is
no `UnmappedBusError` anywhere in the source. -/
theorem claim8_unmapped_bus_no_error (zones : String → Option String) (net : TopoNet)
    (o : OnePort) (ho : o ∈ net.oneports) (hz : zones o.bus = none)
    (sres : String → SolveOutcome) (solver settings : String)
    (hok : sres ("network_model") = SolveOutcome.ok) :
    ZOnePort.mk o.name none ∈ (aggregateNet zones net).oneports ∧
    Ev.aggregated (aggregateNet zones net) ∈
      (runPipeline sres net zones solver settings).1 ∧
    Ev.solveAttempt ("market_model") (setSolver solver settings) ∈
      (runPipeline sres net zones solver settings).1 := by
  refine ⟨?_, ?_, ?_⟩
  · have h1 : ZOnePort.mk o.name (zones o.bus) ∈ (aggregateNet zones net).oneports := by
      simp only [aggregateNet, aggOnePorts]
      exact List.mem_map_of_mem _ ho
    rw [hz] at h1
    exact h1
  · simp only [runPipeline, hok]
    cases hm : sres ("market_model") <;> cases hr : sres ("redispatch_model") <;> simp
  · simp only [runPipeline, hok]
    cases hm : sres ("market_model") <;> cases hr : sres ("redispatch_model") <;> simp

/-- Concrete network used by the C8 counterexample: the generator bus `n1`
has no zone entry. -/
def netC8 : TopoNet :=
  { buses := ["n1", "n2"], oneports := [{ name := "g1", bus := "n1" }], branches := [] }

/-- Partial zone series for the C8 counterexample: only `n2` is mapped. -/
def zonesC8 : String → Option String :=
  fun b => if b = "n2" then some "DE" else none

/-- Counterexample to C8: with a bus whose zone is undefined, the
aggregation completes normally (the one-port bus reference becomes NaN), no
error at all is reported (the pipeline's failure component is `none` when
every solve succeeds), and the market solve IS attempted — rather than an
`UnmappedBusError` being raised before any solve. -/
theorem claim8_counterexample :
    ZOnePort.mk ("g1") none ∈ (aggregateNet zonesC8 netC8).oneports ∧
    Ev.solveAttempt ("market_model") (setSolver ("glpk") ("default")) ∈
      (runPipeline (fun _ => SolveOutcome.ok) netC8 zonesC8 ("glpk") ("default")).1 ∧
    (runPipeline (fun _ => SolveOutcome.ok) netC8 zonesC8 ("glpk") ("default")).2 = none := by
  refine ⟨by decide, by decide, by decide⟩

/-- Witness for the amended C8 at the concrete input. -/
theorem claim8_unmapped_bus_no_error_witness :
    ZOnePort.mk ("g1") none ∈ (aggregateNet zonesC8 netC8).oneports ∧
    Ev.solveAttempt ("market_model") (setSolver ("glpk") ("default")) ∈
      (runPipeline (fun _ => SolveOutcome.ok) netC8 zonesC8 ("glpk") ("default")).1 := by
  have h := claim8_unmapped_bus_no_error zonesC8 netC8 (OnePort.mk ("g1") ("n1"))
    (by decide) (by decide) (fun _ => SolveOutcome.ok) ("glpk") ("default") rfl
  exact ⟨h.1, h.2.2⟩

/-- Trace of the pipeline when the network-model solve fails: only that
solve attempt happened. -/
theorem runPipeline_net_fail (sres : String → SolveOutcome) (net : TopoNet)
    (zones : String → Option String) (solver settings : String)
    (hn : sres ("network_model") ≠ SolveOutcome.ok) :
    runPipeline sres net zones solver settings =
      ([Ev.solveAttempt ("network_model") (setSolver solver settings)],
       some ("network_model")) := by
  cases hn2 : sres ("network_model") with
  | ok => exact absurd hn2 hn
  | infeasible => simp [runPipeline, hn2]
  | err => simp [runPipeline, hn2]

/-- Trace of the pipeline when the market-model solve fails: the network
stage completed, the aggregation and the market solve attempt happened, and
nothing further. -/
theorem runPipeline_market_fail (sres : String → SolveOutcome) (net : TopoNet)
    (zones : String → Option String) (solver settings : String)
    (hn : sres ("network_model") = SolveOutcome.ok)
    (hm : sres ("market_model") ≠ SolveOutcome.ok) :
    runPipeline sres net zones solver settings =
      ([Ev.solveAttempt ("network_model") (setSolver solver settings),
        Ev.exportResult ("network_model"),
        Ev.aggregated (aggregateNet zones net),
        Ev.solveAttempt ("market_model") (setSolver solver settings)],
       some ("market_model")) := by
  cases hm2 : sres ("market_model") with
  | ok => exact absurd hm2 hm
  | infeasible => simp [runPipeline, hn, hm2]
  | err => simp [runPipeline, hn, hm2]

/-- Trace of the pipeline when the redispatch-model solve fails: both
earlier stages completed, the split happened, and the final export did
not. -/
theorem runPipeline_redispatch_fail (sres : String → SolveOutcome) (net : TopoNet)
    (zones : String → Option String) (solver settings : String)
    (hn : sres ("network_model") = SolveOutcome.ok)
    (hm : sres ("market_model") = SolveOutcome.ok)
    (hr : sres ("redispatch_model") ≠ SolveOutcome.ok) :
    runPipeline sres net zones solver settings =
      ([Ev.solveAttempt ("network_model") (setSolver solver settings),
        Ev.exportResult ("network_model"),
        Ev.aggregated (aggregateNet zones net),
        Ev.solveAttempt ("market_model") (setSolver solver settings),
        Ev.exportResult ("market_model"),
        Ev.split,
        Ev.solveAttempt ("redispatch_model") (setSolver solver settings)],
       some ("redispatch_model")) := by
  cases hr2 : sres ("redispatch_model") with
  | ok => exact absurd hr2 hr
  | infeasible => simp [runPipeline, hn, hm, hr2]
  | err => simp [runPipeline, hn, hm, hr2]

/-- Trace of the pipeline when every solve succeeds. -/
theorem runPipeline_all_ok (sres : String → SolveOutcome) (net : TopoNet)
    (zones : String → Option String) (solver settings : String)
    (hn : sres ("network_model") = SolveOutcome.ok)
    (hm : sres ("market_model") = SolveOutcome.ok)
    (hr : sres ("redispatch_model") = SolveOutcome.ok) :
    runPipeline sres net zones solver settings =
      ([Ev.solveAttempt ("network_model") (setSolver solver settings),
        Ev.exportResult ("network_model"),
        Ev.aggregated (aggregateNet zones net),
        Ev.solveAttempt ("market_model") (setSolver solver settings),
        Ev.exportResult ("market_model"),
        Ev.split,
        Ev.solveAttempt ("redispatch_model") (setSolver solver settings),
        Ev.exportResult ("redispatch_model")],
       none) := by
  simp [runPipeline, hn, hm, hr]

/-- C9: every export event of a stage occurs only after that stage's solve
attempt, and only when that solve succeeded; and when the market-model
solve reports infeasibility (with the network stage fine), the pipeline
aborts at the market stage, the generator split never happens, and no
redispatch artifact is exported nor its solve attempted. -/
theorem claim9_stage_ordering (sres : String → SolveOutcome) (net : TopoNet)
    (zones : String → Option String) (solver settings : String) :
    (∀ s : String,
      Ev.exportResult s ∈ (runPipeline sres net zones solver settings).1 →
      sres s = SolveOutcome.ok ∧
      ∃ l1 l2 : List Ev,
        (runPipeline sres net zones solver settings).1 = l1 ++ Ev.exportResult s :: l2 ∧
        Ev.solveAttempt s (setSolver solver settings) ∈ l1) ∧
    (sres ("network_model") = SolveOutcome.ok →
      sres ("market_model") = SolveOutcome.infeasible →
      (runPipeline sres net zones solver settings).2 = some ("market_model") ∧
      Ev.split ∉ (runPipeline sres net zones solver settings).1 ∧
      Ev.exportResult ("redispatch_model") ∉
        (runPipeline sres net zones solver settings).1 ∧
      Ev.solveAttempt ("redispatch_model") (setSolver solver settings) ∉
        (runPipeline sres net zones solver settings).1) := by
  by_cases hn : sres ("network_model") = SolveOutcome.ok
  · by_cases hm : sres ("market_model") = SolveOutcome.ok
    · by_cases hr : sres ("redispatch_model") = SolveOutcome.ok
      · rw [runPipeline_all_ok sres net zones solver settings hn hm hr]
        constructor
        · intro s hs
          have hs2 : s = "network_model" ∨ s = "market_model" ∨ s = "redispatch_model" := by
            simpa using hs
          rcases hs2 with rfl | rfl | rfl
          · exact ⟨hn,
              [Ev.solveAttempt ("network_model") (setSolver solver settings)],
              [Ev.aggregated (aggregateNet zones net),
               Ev.solveAttempt ("market_model") (setSolver solver settings),
               Ev.exportResult ("market_model"), Ev.split,
               Ev.solveAttempt ("redispatch_model") (setSolver solver settings),
               Ev.exportResult ("redispatch_model")],
              rfl, by simp⟩
          · exact ⟨hm,
              [Ev.solveAttempt ("network_model") (setSolver solver settings),
               Ev.exportResult ("network_model"),
               Ev.aggregated (aggregateNet zones net),
               Ev.solveAttempt ("market_model") (setSolver solver settings)],
              [Ev.split,
               Ev.solveAttempt ("redispatch_model") (setSolver solver settings),
               Ev.exportResult ("redispatch_model")],
              rfl, by simp⟩
          · exact ⟨hr,
              [Ev.solveAttempt ("network_model") (setSolver solver settings),
               Ev.exportResult ("network_model"),
               Ev.aggregated (aggregateNet zones net),
               Ev.solveAttempt ("market_model") (setSolver solver settings),
               Ev.exportResult ("market_model"), Ev.split,
               Ev.solveAttempt ("redispatch_model") (setSolver solver settings)],
              [], rfl, by simp⟩
        · intro _ h2
          rw [hm] at h2
          simp at h2
      · rw [runPipeline_redispatch_fail sres net zones solver settings hn hm hr]
        constructor
        · intro s hs
          have hs2 : s = "network_model" ∨ s = "market_model" := by
            simpa using hs
          rcases hs2 with rfl | rfl
          · exact ⟨hn,
              [Ev.solveAttempt ("network_model") (setSolver solver settings)],
              [Ev.aggregated (aggregateNet zones net),
               Ev.solveAttempt ("market_model") (setSolver solver settings),
               Ev.exportResult ("market_model"), Ev.split,
               Ev.solveAttempt ("redispatch_model") (setSolver solver settings)],
              rfl, by simp⟩
          · exact ⟨hm,
              [Ev.solveAttempt ("network_model") (setSolver solver settings),
               Ev.exportResult ("network_model"),
               Ev.aggregated (aggregateNet zones net),
               Ev.solveAttempt ("market_model") (setSolver solver settings)],
              [Ev.split,
               Ev.solveAttempt ("redispatch_model") (setSolver solver settings)],
              rfl, by simp⟩
        · intro _ h2
          rw [hm] at h2
          simp at h2
    · rw [runPipeline_market_fail sres net zones solver settings hn hm]
      constructor
      · intro s hs
        have hs2 : s = "network_model" := by
          simpa using hs
        subst hs2
        exact ⟨hn,
          [Ev.solveAttempt ("network_model") (setSolver solver settings)],
          [Ev.aggregated (aggregateNet zones net),
           Ev.solveAttempt ("market_model") (setSolver solver settings)],
          rfl, by simp⟩
      · intro _ _
        refine ⟨rfl, by simp, by simp, by simp⟩
  · rw [runPipeline_net_fail sres net zones solver settings hn]
    constructor
    · intro s hs
      simp at hs
    · intro h1 _
      exact absurd h1 hn

/-- Concrete solver oracle for the C9 witness: the market-model solve is
infeasible, everything else succeeds. -/
def sresC9 : String → SolveOutcome :=
  fun s => if s = "market_model" then SolveOutcome.infeasible else SolveOutcome.ok

/-- Witness for C9 at the concrete input: with an infeasible market solve
the pipeline stops at the market stage with no split and no redispatch
export. -/
theorem claim9_stage_ordering_witness :
    (runPipeline sresC9 netC8 zonesC8 ("glpk") ("default")).2 = some ("market_model") ∧
    Ev.split ∉ (runPipeline sresC9 netC8 zonesC8 ("glpk") ("default")).1 ∧
    Ev.exportResult ("redispatch_model") ∉
      (runPipeline sresC9 netC8 zonesC8 ("glpk") ("default")).1 := by
  have h := claim9_stage_ordering sresC9 netC8 zonesC8 ("glpk") ("default")
  have h2 := h.2 (by decide) (by decide)
  exact ⟨h2.1, h2.2.1, h2.2.2.1⟩

/-- C10: for every solver other than `"gurobi"` and every settings value
other than `"default"`, `set_solver` leaves the options mapping empty and
the pipeline passes that empty mapping to every stage's `optimize` call
(tuning settings are silently discarded); only the pair
`("gurobi", "default")` yields the non-empty hard-coded mapping of line
37. -/
theorem claim10_solver_options (sres : String → SolveOutcome) (net : TopoNet)
    (zones : String → Option String) (solver settings : String)
    (h : solver ≠ "gurobi" ∨ settings ≠ "default") :
    setSolver solver settings = [] ∧
    (∀ (s : String) (o : List (String × ℚ)),
      Ev.solveAttempt s o ∈ (runPipeline sres net zones solver settings).1 → o = []) ∧
    setSolver ("gurobi") ("default") =
      [("Crossover", 0), ("Threads", 4), ("Method", 2),
       ("BarConvTol", 1 / 1000000), ("Seed", 123), ("AggFill", 0),
       ("PreDual", 0), ("GURO_PAR_BARDENSETHRESH", 200)] := by
  have hempty : setSolver solver settings = [] := by
    rcases h with h | h
    · simp [setSolver, h]
    · simp [setSolver, h]
  refine ⟨hempty, ?_, rfl⟩
  intro s o hmem
  by_cases hn : sres ("network_model") = SolveOutcome.ok
  · by_cases hm : sres ("market_model") = SolveOutcome.ok
    · by_cases hr : sres ("redispatch_model") = SolveOutcome.ok
      · rw [runPipeline_all_ok sres net zones solver settings hn hm hr, hempty] at hmem
        have hm2 : (s = "network_model" ∧ o = []) ∨ (s = "market_model" ∧ o = []) ∨
            (s = "redispatch_model" ∧ o = []) := by
          simpa using hmem
        rcases hm2 with ⟨_, ho⟩ | ⟨_, ho⟩ | ⟨_, ho⟩ <;> exact ho
      · rw [runPipeline_redispatch_fail sres net zones solver settings hn hm hr,
          hempty] at hmem
        have hm2 : (s = "network_model" ∧ o = []) ∨ (s = "market_model" ∧ o = []) ∨
            (s = "redispatch_model" ∧ o = []) := by
          simpa using hmem
        rcases hm2 with ⟨_, ho⟩ | ⟨_, ho⟩ | ⟨_, ho⟩ <;> exact ho
    · rw [runPipeline_market_fail sres net zones solver settings hn hm, hempty] at hmem
      have hm2 : (s = "network_model" ∧ o = []) ∨ (s = "market_model" ∧ o = []) := by
        simpa using hmem
      rcases hm2 with ⟨_, ho⟩ | ⟨_, ho⟩ <;> exact ho
  · rw [runPipeline_net_fail sres net zones solver settings hn, hempty] at hmem
    have hm2 : s = "network_model" ∧ o = [] := by
      simpa using hmem
    exact hm2.2

/-- Witness for C10 at the concrete input: a non-gurobi solver gets an
empty options mapping everywhere. -/
theorem claim10_solver_options_witness :
    setSolver ("cplex") ("default") = [] ∧
    (∀ (s : String) (o : List (String × ℚ)),
      Ev.solveAttempt s o ∈
        (runPipeline (fun _ => SolveOutcome.ok) netC8 zonesC8 ("cplex") ("default")).1 →
      o = []) := by
  have h := claim10_solver_options (fun _ => SolveOutcome.ok) netC8 zonesC8
    ("cplex") ("default") (Or.inl (by decide))
  exact ⟨h.1, h.2.1⟩
